import Mathlib

/-!
# Verification of the bhatho key–value engine core

Shallow embedding of the bhatho source (sharded LRU cache, async write
pipeline, DB manager coherence policy, router) together with proofs of the
specification claims.  Rust byte vectors (`Vec<u8>`) and Rust `String`
values are modelled as `List Nat` (each entry one byte); 64-bit machine
arithmetic is modelled on `Nat` with explicit reduction modulo `2 ^ 64`.
-/

/-- Byte strings: the model of `Vec<u8>` (and of Rust `String` contents). -/
abbrev Bytes := List Nat

/-- The constant `2 ^ 64`, the modulus of 64-bit machine arithmetic. -/
def U64MOD : Nat := 18446744073709551616

/-- 64-bit wrapping addition. -/
def add64 (a b : Nat) : Nat := (a + b) % U64MOD

/-- 64-bit wrapping multiplication. -/
def mul64 (a b : Nat) : Nat := (a * b) % U64MOD

/-- 64-bit wrapping subtraction (for values already reduced mod `2 ^ 64`). -/
def sub64 (a b : Nat) : Nat := (a + U64MOD - b % U64MOD) % U64MOD

/-- Bitwise xor (stays below `2 ^ 64` for reduced inputs). -/
def xor64 (a b : Nat) : Nat := a ^^^ b

/-- 64-bit left rotation by `r` bits. -/
def rotl64 (x r : Nat) : Nat := ((x <<< r) % U64MOD) ||| (x >>> (64 - r))

/-- XXH64 prime 1 (`twox_hash` / xxHash reference constants). -/
def xxPrime1 : Nat := 11400714785074694791

/-- XXH64 prime 2. -/
def xxPrime2 : Nat := 14029467366897019727

/-- XXH64 prime 3. -/
def xxPrime3 : Nat := 1609587929392839161

/-- XXH64 prime 4. -/
def xxPrime4 : Nat := 9650029242287828579

/-- XXH64 prime 5. -/
def xxPrime5 : Nat := 2870177450012600261

/-- XXH64 accumulator round. -/
def xxh64round (acc lane : Nat) : Nat :=
  mul64 (rotl64 (add64 acc (mul64 lane xxPrime2)) 31) xxPrime1

/-- XXH64 merge round used when folding the four stripe accumulators. -/
def xxh64merge (h acc : Nat) : Nat :=
  add64 (mul64 (xor64 h (xxh64round 0 acc)) xxPrime1) xxPrime4

/-- Little-endian interpretation of a byte list as an unsigned number. -/
def leNat (bs : Bytes) : Nat := bs.foldr (fun b acc => b % 256 + 256 * acc) 0

/-- The XXH64 hash of a byte string with the given seed: the model of
`twox_hash::XxHash::with_seed(seed)` followed by one `write` and `finish`
(`src/keyval.rs`, `KeyVal::get_hash_code`). -/
def xxh64 (seed : Nat) (input : Bytes) : Nat :=
  let len := input.length
  let core :=
    if 32 ≤ len then
      let ns := len / 32
      let stripes := (List.range ns).map (fun i => ((input.drop (32 * i)).take 32))
      let initAcc : Nat × Nat × Nat × Nat :=
        (add64 seed (add64 xxPrime1 xxPrime2), add64 seed xxPrime2,
          seed % U64MOD, sub64 seed xxPrime1)
      let accs := stripes.foldl
        (fun a s =>
          (xxh64round a.1 (leNat (s.take 8)),
            xxh64round a.2.1 (leNat ((s.drop 8).take 8)),
            xxh64round a.2.2.1 (leNat ((s.drop 16).take 8)),
            xxh64round a.2.2.2 (leNat ((s.drop 24).take 8)))) initAcc
      let h0 := add64 (add64 (rotl64 accs.1 1) (rotl64 accs.2.1 7))
        (add64 (rotl64 accs.2.2.1 12) (rotl64 accs.2.2.2 18))
      xxh64merge (xxh64merge (xxh64merge (xxh64merge h0 accs.1) accs.2.1) accs.2.2.1) accs.2.2.2
    else add64 (seed % U64MOD) xxPrime5
  let h1 := add64 core len
  let rem := input.drop (32 * (len / 32))
  let n8 := rem.length / 8
  let h2 := (List.range n8).foldl
    (fun h i =>
      add64 (mul64 (rotl64 (xor64 h (xxh64round 0 (leNat ((rem.drop (8 * i)).take 8)))) 27)
        xxPrime1) xxPrime4) h1
  let rem4 := rem.drop (8 * n8)
  let h3 :=
    if 4 ≤ rem4.length then
      add64 (mul64 (rotl64 (xor64 h2 (mul64 (leNat (rem4.take 4)) xxPrime1)) 23) xxPrime2)
        xxPrime3
    else h2
  let rem1 := if 4 ≤ rem4.length then rem4.drop 4 else rem4
  let h4 := rem1.foldl (fun h b => mul64 (rotl64 (xor64 h (mul64 (b % 256) xxPrime5)) 11) xxPrime1) h3
  let h5 := xor64 h4 (h4 >>> 33)
  let h6 := mul64 h5 xxPrime2
  let h7 := xor64 h6 (h6 >>> 29)
  let h8 := mul64 h7 xxPrime3
  xor64 h8 (h8 >>> 32)

/-- The request record (`src/keyval.rs`, `struct KeyVal`). -/
structure KeyVal where
  hash : Nat
  key : Bytes
  val : Bytes
  db_name : Bytes
  skip_db : Bool
  skip_cache : Bool
deriving DecidableEq, Repr

/-- Model of `KeyVal::get_hash_code`: XXH64 of the key bytes with seed 0. -/
def KeyVal.get_hash_code (key : Bytes) : Nat := xxh64 0 key

/-- Model of `KeyVal::new`. -/
def KeyVal.new (key val : Bytes) : KeyVal :=
  ⟨KeyVal.get_hash_code key, key, val, [], false, false⟩

/-- Model of `KeyVal::new_with_db_name`. -/
def KeyVal.new_with_db_name (db_name key val : Bytes) : KeyVal :=
  ⟨KeyVal.get_hash_code key, key, val, db_name, false, false⟩

/-- Model of `KeyVal::new_with_hash` (the only constructor taking the hash verbatim). -/
def KeyVal.new_with_hash (key_hash : Nat) (key val : Bytes) : KeyVal :=
  ⟨key_hash, key, val, [], false, false⟩

/-- Model of `KeyVal::new_with_key`. -/
def KeyVal.new_with_key (key : Bytes) : KeyVal :=
  ⟨KeyVal.get_hash_code key, key, [], [], false, false⟩

/-- Model of `KeyVal::new_with_db_key`. -/
def KeyVal.new_with_db_key (db_name key : Bytes) : KeyVal :=
  ⟨KeyVal.get_hash_code key, key, [], db_name, false, false⟩

/-- Loop body of `KeyVal::gen_consistent_slot` (`src/keyval.rs`): the jump
consistent hash iteration `while j < n { b := j; h := h*K + 1; j := ... }`.
The source computes `j` with `f64` multiplication/division truncated to
`i64`; this model uses the exact rational floor of the same expression
(none of the claims proved below depend on the value of this body).
The fuel starts at `slot_count + 1`, which dominates the number of loop
iterations, since `j` grows by at least 1 each iteration. -/
def jumpLoopAux (n : Nat) : Nat → Nat → Int → Int → Int
  | 0, _, b, _ => b
  | fuel + 1, h, b, j =>
    if j < (n : Int) then
      let h2 := (h * 2862933555777941757 + 1) % U64MOD
      let j2 := ((j + 1) * 2147483648) / (((h2 >>> 33 : Nat) : Int) + 1)
      jumpLoopAux n fuel h2 j j2
    else b

/-- Model of `KeyVal::gen_consistent_slot`: jump consistent hash of a 64-bit hash to
`slot_count` buckets, with the final `b as u64` cast. -/
def KeyVal.gen_consistent_slot (hash : Nat) (slot_count : Nat) : Nat :=
  (Int.emod (jumpLoopAux slot_count (slot_count + 1) (hash % U64MOD) (-1) 0)
    ((U64MOD : Nat) : Int)).toNat

/-- Model of `KeyVal::slot`: slot from the carried fingerprint; 0 when `slot_count == 1`. -/
def KeyVal.slot (kv : KeyVal) (slot_count : Nat) : Nat :=
  if slot_count = 1 then 0 else KeyVal.gen_consistent_slot kv.hash slot_count

/-- Model of `KeyVal::key_slot`: slot by rehashing the key bytes; 0 when `slot_count == 1`. -/
def KeyVal.key_slot (key : Bytes) (slot_count : Nat) : Nat :=
  if slot_count = 1 then 0 else KeyVal.gen_consistent_slot (KeyVal.get_hash_code key) slot_count

/-- Model of the `lru` crate's `LruCache<Vec<u8>, Vec<u8>>`: entries kept
in recency order, most recently used first, with a fixed capacity
(`src/cache/lru_cache.rs`, `type LruCacheVec`). -/
structure LruCacheVec where
  entries : List (Bytes × Bytes)
  cap : Nat
deriving DecidableEq, Repr

/-- Model of `LruCache::get`: on a hit returns the value and promotes the entry to
the most-recent position; on a miss leaves the ordering unchanged. -/
def LruCacheVec.getEntry (l : LruCacheVec) (k : Bytes) : Option Bytes × LruCacheVec :=
  match l.entries.find? (fun e => e.1 == k) with
  | some e => (some e.2, ⟨(k, e.2) :: l.entries.eraseP (fun e => e.1 == k), l.cap⟩)
  | none => (none, l)

/-- Model of `LruCache::put`: insert or overwrite at the most-recent position,
evicting the least-recently-used entry if the capacity would be exceeded. -/
def LruCacheVec.putEntry (l : LruCacheVec) (k v : Bytes) : LruCacheVec :=
  ⟨((k, v) :: l.entries.eraseP (fun e => e.1 == k)).take l.cap, l.cap⟩

/-- Model of `LruCache::pop`: remove the entry if present. -/
def LruCacheVec.popEntry (l : LruCacheVec) (k : Bytes) : LruCacheVec :=
  ⟨l.entries.eraseP (fun e => e.1 == k), l.cap⟩

/-- Model of `LruCache::len`. -/
def LruCacheVec.lenEntries (l : LruCacheVec) : Nat := l.entries.length

/-- One LRU shard (`src/cache/lru_cache.rs`, `struct Lru`): the mutex-guarded
cache state together with its id and capacity. -/
structure Lru where
  id : Nat
  cache : LruCacheVec
  cache_capacity : Nat
deriving DecidableEq, Repr

/-- Model of `Lru::new`: a fresh shard with an empty cache of the given capacity. -/
def Lru.new (id cache_capacity : Nat) : Lru :=
  ⟨id, ⟨[], cache_capacity⟩, cache_capacity⟩

/-- Model of `Lru::get`. -/
def Lru.get (s : Lru) (key : Bytes) : Option Bytes × Lru :=
  let r := s.cache.getEntry key
  (r.1, { s with cache := r.2 })

/-- Model of `Lru::put`: always returns `Ok(())`. -/
def Lru.put (s : Lru) (key val : Bytes) : Except Bytes Unit × Lru :=
  (.ok (), { s with cache := s.cache.putEntry key val })

/-- Model of `Lru::delete`: always returns `Ok(())`. -/
def Lru.delete (s : Lru) (key : Bytes) : Except Bytes Unit × Lru :=
  (.ok (), { s with cache := s.cache.popEntry key })

/-- Model of `Lru::len`. -/
def Lru.len (s : Lru) : Nat := s.cache.lenEntries

/-- Model of `Lru::is_empty` as written in the source: it returns `len() > 0`. -/
def Lru.is_empty (s : Lru) : Bool := decide (0 < s.cache.lenEntries)

/-- Cache configuration (`src/cache/config.rs`, `struct CacheConfig`).
The `keys_dump_file` path is carried as bytes. -/
structure CacheConfig where
  enabled : Bool
  cache_capacity : Nat
  num_shards : Nat
  cache_update_on_db_read : Bool
  cache_update_on_db_write : Bool
  keys_dump_enabled : Bool
  keys_dump_file : Bytes
deriving DecidableEq, Repr

/-- The sharded cache (`src/cache/sharded_cache.rs`, `struct ShardedCache`). -/
structure ShardedCache where
  shards : List Lru
  config : CacheConfig
  enabled : Bool
deriving DecidableEq, Repr

/-- Model of `ShardedCache::get_shard`: slot of a key by rehashing its bytes. -/
def ShardedCache.get_shard (c : ShardedCache) (key : Bytes) : Nat :=
  KeyVal.key_slot key c.config.num_shards

/-- Model of `ShardedCache::get_shard_key_val`: slot from the carried fingerprint. -/
def ShardedCache.get_shard_key_val (c : ShardedCache) (kv : KeyVal) : Nat :=
  kv.slot c.config.num_shards

/-- Model of `ShardedCache::new`. The two `assert!`s of the source (`num_shards > 0`
and `shard_capacity > 0`) are modelled as `none` (the Rust code panics).
The source adds `cache_capacity + adjust` in `usize` arithmetic, which
wraps modulo `2 ^ 64` (release-mode two's-complement wrap on a 64-bit
host) before the division. -/
def ShardedCache.new (config : CacheConfig) : Option ShardedCache :=
  if config.num_shards = 0 then none
  else
    let adjust := config.cache_capacity % config.num_shards
    let shard_capacity := ((config.cache_capacity + adjust) % U64MOD) / config.num_shards
    if shard_capacity = 0 then none
    else
      let shards :=
        if config.enabled then (List.range config.num_shards).map (fun i => Lru.new i shard_capacity)
        else []
      some ⟨shards, config, config.enabled⟩

/-- Model of `ShardedCache::get`: short-circuits to `None` when disabled, else
dispatches to `shards[get_shard(key)]`. -/
def ShardedCache.get (c : ShardedCache) (key : Bytes) : Option Bytes × ShardedCache :=
  if !c.enabled then (none, c)
  else
    let i := c.get_shard key
    let r := (c.shards.getD i (Lru.new 0 0)).get key
    (r.1, { c with shards := c.shards.set i r.2 })

/-- Model of `ShardedCache::get_key_val`. -/
def ShardedCache.get_key_val (c : ShardedCache) (kv : KeyVal) : Option Bytes × ShardedCache :=
  if !c.enabled then (none, c)
  else
    let i := c.get_shard_key_val kv
    let r := (c.shards.getD i (Lru.new 0 0)).get kv.key
    (r.1, { c with shards := c.shards.set i r.2 })

/-- Model of `ShardedCache::put`: returns `Ok(())` without touching any shard when
disabled. -/
def ShardedCache.put (c : ShardedCache) (key val : Bytes) : Except Bytes Unit × ShardedCache :=
  if !c.enabled then (.ok (), c)
  else
    let i := c.get_shard key
    let r := (c.shards.getD i (Lru.new 0 0)).put key val
    (r.1, { c with shards := c.shards.set i r.2 })

/-- Model of `ShardedCache::put_key_val`. -/
def ShardedCache.put_key_val (c : ShardedCache) (kv : KeyVal) (val : Bytes) :
    Except Bytes Unit × ShardedCache :=
  if !c.enabled then (.ok (), c)
  else
    let i := c.get_shard_key_val kv
    let r := (c.shards.getD i (Lru.new 0 0)).put kv.key val
    (r.1, { c with shards := c.shards.set i r.2 })

/-- Model of `ShardedCache::delete`. -/
def ShardedCache.delete (c : ShardedCache) (key : Bytes) : Except Bytes Unit × ShardedCache :=
  if !c.enabled then (.ok (), c)
  else
    let i := c.get_shard key
    let r := (c.shards.getD i (Lru.new 0 0)).delete key
    (r.1, { c with shards := c.shards.set i r.2 })

/-- Model of `ShardedCache::batch_put`: per-record slot from the carried fingerprint;
per-key errors are logged and skipped; returns `Ok(())` when enabled and
short-circuits to `Ok(())` when disabled. -/
def ShardedCache.batch_put (c : ShardedCache) (data : List KeyVal) :
    Except Bytes Unit × ShardedCache :=
  if !c.enabled then (.ok (), c)
  else
    (.ok (),
      data.foldl
        (fun acc kv =>
          let i := acc.get_shard_key_val kv
          let r := (acc.shards.getD i (Lru.new 0 0)).put kv.key kv.val
          { acc with shards := acc.shards.set i r.2 })
        c)

/-- The store adapter contract of the spec (section 6.2): the behaviour of the
persistent engine behind `RocksDb` as seen by `DbManager` (`Arc<RocksDb>`
with its `get`/`put` surface).  The engine itself is an external
collaborator, so it is modelled by its result functions. -/
structure StoreModel where
  getFn : Bytes → Except Bytes (Option Bytes)
  putFn : Bytes → Bytes → Except Bytes Unit
  deleteFn : Bytes → Except Bytes Unit

/-- The slice of `DbManagerConfig` that `DbManager`'s operations consult
(`src/db/config.rs`): the name and the embedded cache policy record. -/
structure DbManagerConfig where
  name : Bytes
  cache_config : CacheConfig

/-- Model of `DbManager` (`src/db/db_manager.rs`): one named pair of a sharded cache
and an optional store (`db` is `None` when the store is disabled). -/
structure DbManager where
  name : Bytes
  db : Option StoreModel
  cache : ShardedCache
  config : DbManagerConfig

/-- Model of `DbManager::get` (`src/db/db_manager.rs` lines 67–95).  Returns the
result together with the cache state after the call (the Rust cache is
mutated behind `Arc<Mutex<...>>`; the model passes the state explicitly).
A cache-update failure on read-through is discarded (`let _ = ...`). -/
def DbManager.get (m : DbManager) (key : Bytes) :
    Except Bytes (Option (Bytes × Bool)) × ShardedCache :=
  match m.cache.get key with
  | (some val, c1) => (.ok (some (val, true)), c1)
  | (none, c1) =>
    match m.db with
    | none => (.ok none, c1)
    | some db =>
      match db.getFn key with
      | .ok (some value) =>
        if m.config.cache_config.cache_update_on_db_read then
          let r := c1.put key value
          (.ok (some (value, false)), r.2)
        else (.ok (some (value, false)), c1)
      | .ok none => (.ok none, c1)
      | .error e => (.error e, c1)

/-- Model of `DbManager::get_key_val` (`src/db/db_manager.rs` lines 99–128): same as
`get` but addressing the cache through the carried fingerprint. -/
def DbManager.get_key_val (m : DbManager) (kv : KeyVal) :
    Except Bytes (Option (Bytes × Bool)) × ShardedCache :=
  match m.cache.get_key_val kv with
  | (some val, c1) => (.ok (some (val, true)), c1)
  | (none, c1) =>
    match m.db with
    | none => (.ok none, c1)
    | some db =>
      match db.getFn kv.key with
      | .ok (some value) =>
        if m.config.cache_config.cache_update_on_db_read then
          let r := c1.put_key_val kv value
          (.ok (some (value, false)), r.2)
        else (.ok (some (value, false)), c1)
      | .ok none => (.ok none, c1)
      | .error e => (.error e, c1)

/-- Model of `DbManager::put` (`src/db/db_manager.rs` lines 132–144): store put first
(errors propagate, cache untouched), then the policy-gated cache update
whose error propagates via `?`. -/
def DbManager.put (m : DbManager) (key val : Bytes) : Except Bytes Unit × ShardedCache :=
  match m.db with
  | some db =>
    match db.putFn key val with
    | .error e => (.error e, m.cache)
    | .ok _ =>
      if m.config.cache_config.cache_update_on_db_write then m.cache.put key val
      else (.ok (), m.cache)
  | none =>
    if m.config.cache_config.cache_update_on_db_write then m.cache.put key val
    else (.ok (), m.cache)

/-- Model of `DbManager::put_key_val` (`src/db/db_manager.rs` lines 148–159); note the
source updates the cache through `cache.put(&kv.key, &kv.val)`. -/
def DbManager.put_key_val (m : DbManager) (kv : KeyVal) : Except Bytes Unit × ShardedCache :=
  match m.db with
  | some db =>
    match db.putFn kv.key kv.val with
    | .error e => (.error e, m.cache)
    | .ok _ =>
      if m.config.cache_config.cache_update_on_db_write then m.cache.put kv.key kv.val
      else (.ok (), m.cache)
  | none =>
    if m.config.cache_config.cache_update_on_db_write then m.cache.put kv.key kv.val
    else (.ok (), m.cache)

/-- The slice of `RocksDbConfig` (`src/db/config.rs`) consulted by the async
writer loop. -/
structure RocksDbConfig where
  min_count_for_batch_write : Nat
  disable_wal : Bool
  async_writer_threads_sleep_ms : Nat

/-- Observable actions of one async writer worker against the store
(`RocksDb::write_to_db`). `writeBatch items withWal` is `db.write` when
`withWal` and `db.write_without_wal` otherwise. -/
inductive DbOp where
  | put : Bytes → Bytes → DbOp
  | writeBatch : List (Bytes × Bytes) → Bool → DbOp
  | sleep : DbOp
deriving DecidableEq, Repr

/-- Model of `RocksDb::write_to_db` (`src/db/rocks_db.rs` lines 133–183).  The loop
interacts with its environment once per iteration: the schedule lists, for
each iteration, the records `try_iter().collect()` drains and the value a
`shutdown.load()` would observe.  The result is the sequence of store
operations attempted (store errors are logged and ignored by the source,
so they do not influence control flow) and whether the worker exited
(`true`) or the schedule was exhausted mid-loop (`false`). -/
def write_to_db (cfg : RocksDbConfig) : List (List KeyVal × Bool) → List DbOp × Bool
  | [] => ([], false)
  | (data, sd) :: rest =>
    if data.isEmpty then
      if sd then ([], true)
      else
        let r := write_to_db cfg rest
        (DbOp.sleep :: r.1, r.2)
    else if data.length < cfg.min_count_for_batch_write then
      let r := write_to_db cfg rest
      (data.map (fun kv => DbOp.put kv.key kv.val) ++ r.1, r.2)
    else
      let r := write_to_db cfg rest
      (DbOp.writeBatch (data.map (fun kv => (kv.key, kv.val))) (!cfg.disable_wal) :: r.1, r.2)

/-- The store operations one loop iteration of `write_to_db` performs on a
drained vector `D`: sleep when empty, individual puts below the batch
threshold, one batch (WAL-gated) otherwise. -/
def iterOps (cfg : RocksDbConfig) (data : List KeyVal) : List DbOp :=
  if data.isEmpty then [DbOp.sleep]
  else if data.length < cfg.min_count_for_batch_write then
    data.map (fun kv => DbOp.put kv.key kv.val)
  else [DbOp.writeBatch (data.map (fun kv => (kv.key, kv.val))) (!cfg.disable_wal)]

/-- A record was attempted against the store: it appears as an individual
put or inside a committed batch. -/
def attempted (kv : KeyVal) (ops : List DbOp) : Prop :=
  ∃ op ∈ ops, op = DbOp.put kv.key kv.val ∨
    ∃ b w, op = DbOp.writeBatch b w ∧ (kv.key, kv.val) ∈ b

/-- Filesystem environment for `export_keys`: whether the dump path exists,
whether it has a parent, and the outcomes the OS returns for directory
creation, file open, and each write (indexed by the number of writes
already performed on the file); `none` means success. -/
structure FsEnv where
  path_exists : Bool
  has_parent : Bool
  create_dir_result : Option Bytes
  open_result : Option Bytes
  write_result : Nat → Option Bytes

/-- State of the opened dump file: blocks successfully written so far and
the count of performed writes. -/
structure FileSt where
  data : List Bytes
  wcount : Nat
deriving DecidableEq, Repr

/-- Visible filesystem actions of `ShardedCache::export_keys`. -/
inductive FsOp where
  | createDirAll : FsOp
  | openFile : FsOp
  | fileWrite : Bytes → FsOp
  | syncData : FsOp
deriving DecidableEq, Repr

/-- Model of `File::write` in the model: consult the environment at the current write
index; on success append the block. -/
def fwrite (env : FsEnv) (st : FileSt) (b : Bytes) : Except Bytes FileSt :=
  match env.write_result st.wcount with
  | some e => .error e
  | none => .ok ⟨st.data ++ [b], st.wcount + 1⟩

/-- The CRLF separator written after every key. -/
def crlf : Bytes := [13, 10]

/-- Iteration body of `Lru::export_keys` (`src/cache/lru_cache.rs` lines
138–155): write each key then CRLF, counting completed records; the first
write error aborts, returning the file state reached so far. -/
def exportEntries (env : FsEnv) :
    List (Bytes × Bytes) → FileSt → Nat → Except Bytes Nat × FileSt
  | [], st, total => (.ok total, st)
  | e :: rest, st, total =>
    match fwrite env st e.1 with
    | .error err => (.error err, st)
    | .ok st1 =>
      match fwrite env st1 crlf with
      | .error err => (.error err, st1)
      | .ok st2 => exportEntries env rest st2 (total + 1)

/-- Model of `Lru::export_keys`: export every entry of the shard to the open file. -/
def Lru.export_keys (s : Lru) (env : FsEnv) (st : FileSt) : Except Bytes Nat × FileSt :=
  exportEntries env s.cache.entries st 0

/-- The per-shard loop of `ShardedCache::export_keys` (`total += count`,
`?` aborts on the first shard error). -/
def exportShardsLoop (env : FsEnv) :
    List Lru → FileSt → Nat → Except Bytes Nat × FileSt
  | [], st, total => (.ok total, st)
  | s :: rest, st, total =>
    match Lru.export_keys s env st with
    | (.error e, st1) => (.error e, st1)
    | (.ok count, st1) => exportShardsLoop env rest st1 (total + count)

/-- Model of `ShardedCache::export_keys` (`src/cache/sharded_cache.rs` lines 162–236)
returning the source's result and the trace of filesystem actions
performed.  Gates: disabled cache, then `keys_dump_enabled`; then parent
directory creation when the path does not exist, file open, the per-shard
export loop in index order, and a final `sync_data` whose failure is only
logged. -/
def ShardedCache.export_keys (c : ShardedCache) (env : FsEnv) :
    Except Bytes Nat × List FsOp :=
  if !c.enabled then (.ok 0, [])
  else if !c.config.keys_dump_enabled then (.ok 0, [])
  else
    let needDir := !env.path_exists && env.has_parent
    let dirOps : List FsOp := if needDir then [.createDirAll] else []
    match if needDir then env.create_dir_result else none with
    | some e => (.error e, dirOps)
    | none =>
      match env.open_result with
      | some e => (.error e, dirOps ++ [.openFile])
      | none =>
        let r := exportShardsLoop env c.shards ⟨[], 0⟩ 0
        match r.1 with
        | .error e => (.error e, dirOps ++ [.openFile] ++ r.2.data.map FsOp.fileWrite)
        | .ok total =>
          (.ok total, dirOps ++ [.openFile] ++ r.2.data.map FsOp.fileWrite ++ [.syncData])

/-- A regex mapping rule (`src/lib.rs`, `struct RegExMapping`): the compiled
regex is modelled by its match predicate on the key bytes (the source
feeds `String::from_utf8_lossy(&kv.key)` to `captures_iter` and only asks
whether some capture exists). -/
structure RegExMapping where
  extract_name_regex : Bytes → Bool
  new_db_name : Bytes

/-- Model of `src/lib.rs`, `struct DbNameExtractor`. -/
structure DbNameExtractor where
  enabled : Bool
  override_nonempty : Bool
  regex_mappings : List RegExMapping

/-- The router-level configuration slice `Bhatho` consults. -/
structure BhathoConfig where
  db_name_extractor_from_key : DbNameExtractor

/-- The router (`src/lib.rs`, `struct Bhatho`): ordered DB managers plus the
compiled `(new_db_name, regex)` list built in `Bhatho::new`. -/
structure Bhatho where
  dbs : List DbManager
  config : BhathoConfig
  regexs : List (Bytes × (Bytes → Bool))

/-- Model of `Bhatho::extract_table_name_from_key` (`src/lib.rs` lines 94–107):
when extraction applies, the first regex with a match on the key yields
its `new_db_name`; otherwise `Err("not_found")`.  The error message bytes
spell `not_found`. -/
def Bhatho.extract_table_name_from_key (b : Bhatho) (kv : KeyVal) : Except Bytes Bytes :=
  if b.config.db_name_extractor_from_key.enabled
      && (kv.db_name.isEmpty || b.config.db_name_extractor_from_key.override_nonempty) then
    match b.regexs.find? (fun r => r.2 kv.key) with
    | some r => .ok r.1
    | none => .error [110, 111, 116, 95, 102, 111, 117, 110, 100]
  else .error [110, 111, 116, 95, 102, 111, 117, 110, 100]

/-- Model of `Bhatho::get_shard` (`src/lib.rs` lines 116–133), exactly as written:
the local `db_name` is replaced by a successful extraction, the emptiness
test uses the local `db_name`, but the linear scan compares each manager's
name against `kv.db_name`; if no manager matches, fall through to
`kv.hash % dbs.len()`. -/
def Bhatho.get_shard (b : Bhatho) (kv : KeyVal) : Nat :=
  let db_name :=
    if b.config.db_name_extractor_from_key.enabled then
      match b.extract_table_name_from_key kv with
      | .ok name => name
      | .error _ => kv.db_name
    else kv.db_name
  if !db_name.isEmpty then
    match b.dbs.enum.find? (fun p => p.2.name == kv.db_name) with
    | some p => p.1
    | none => kv.hash % b.dbs.length
  else kv.hash % b.dbs.length

/-- The shard-selection rule as the specification states it (steps 2–4 of
section 4.6): the linear scan compares manager names against the
post-extraction `db_name`.  Used to exhibit the divergence from
`Bhatho::get_shard`. -/
def Bhatho.get_shard_spec (b : Bhatho) (kv : KeyVal) : Nat :=
  let db_name :=
    if b.config.db_name_extractor_from_key.enabled then
      match b.extract_table_name_from_key kv with
      | .ok name => name
      | .error _ => kv.db_name
    else kv.db_name
  if !db_name.isEmpty then
    match b.dbs.enum.find? (fun p => p.2.name == db_name) with
    | some p => p.1
    | none => kv.hash % b.dbs.length
  else kv.hash % b.dbs.length

/-- The bytes of the name `red`. -/
def redName : Bytes := [114, 101, 100]

/-- The bytes of the name `blue`. -/
def blueName : Bytes := [98, 108, 117, 101]

/-- The bytes of the key `user:42`. -/
def userKey : Bytes := [117, 115, 101, 114, 58, 52, 50]

/-- Match predicate of the rule regex `^user:`. -/
def userRe : Bytes → Bool := fun k => k.take 5 == [117, 115, 101, 114, 58]

/-- A concrete single-shard cache configuration (capacity 4, dumps on). -/
def cacheCfg1 : CacheConfig := ⟨true, 4, 1, true, true, true, []⟩

/-- A concrete shard holding the single entry `[1] ↦ [2]`. -/
def shard1 : Lru := ⟨0, ⟨[([1], [2])], 4⟩, 4⟩

/-- A concrete enabled one-shard cache holding `[1] ↦ [2]`. -/
def cacheOn : ShardedCache := ⟨[shard1], cacheCfg1, true⟩

/-- A concrete disabled cache. -/
def cacheOff : ShardedCache :=
  ⟨[shard1], { cacheCfg1 with enabled := false }, false⟩

/-- An enabled cache whose `keys_dump_enabled` is off. -/
def cacheNoDump : ShardedCache :=
  ⟨[shard1], { cacheCfg1 with keys_dump_enabled := false }, true⟩

/-- A store with no data that accepts every write. -/
def storeEmpty : StoreModel := ⟨fun _ => .ok none, fun _ _ => .ok (), fun _ => .ok ()⟩

/-- A store that fails every operation with the error byte `[101]`. -/
def storeErr : StoreModel :=
  ⟨fun _ => .error [101], fun _ _ => .error [101], fun _ => .error [101]⟩

/-- A store holding `[9]` under every key. -/
def storeNine : StoreModel := ⟨fun _ => .ok (some [9]), fun _ _ => .ok (), fun _ => .ok ()⟩

/-- A concrete DB-manager configuration around `cacheCfg1`. -/
def mgrCfg1 : DbManagerConfig := ⟨[], cacheCfg1⟩

/-- A concrete manager: empty store, enabled one-shard cache with `[1] ↦ [2]`. -/
def mgrHit : DbManager := ⟨[], some storeEmpty, cacheOn, mgrCfg1⟩

/-- A concrete manager over the always-failing store. -/
def mgrErr : DbManager := ⟨[], some storeErr, cacheOn, mgrCfg1⟩

/-- A named manager with no store and a disabled cache (router fixtures). -/
def mgrNamed (n : Bytes) : DbManager := ⟨n, none, cacheOff, ⟨n, cacheCfg1⟩⟩

/-- A concrete router: DBs `red` and `blue`, extractor enabled
(`override_nonempty = false`) with the single rule `^user:` → `red`. -/
def bRouter : Bhatho :=
  ⟨[mgrNamed redName, mgrNamed blueName],
    ⟨⟨true, false, [⟨userRe, redName⟩]⟩⟩,
    [(redName, userRe)]⟩

/-- The request `{hash: 1, key: "user:42", db_name: ""}`. -/
def kvUser : KeyVal := KeyVal.new_with_hash 1 userKey []

/-- A concrete record `[1] ↦ [2]` with fingerprint 1. -/
def kvW : KeyVal := ⟨1, [1], [2], [], false, false⟩

/-- A concrete writer config: batch threshold 2, WAL enabled. -/
def cfgW : RocksDbConfig := ⟨2, false, 1⟩

/-- A concrete writer schedule: one drained record, then an empty drain with
the shutdown flag set. -/
def schedW : List (List KeyVal × Bool) := [([kvW], false), ([], true)]

/-- A filesystem environment in which every operation succeeds and the dump
path already exists. -/
def fsClean : FsEnv := ⟨true, true, none, none, fun _ => none⟩

/-- A filesystem environment whose very first file write fails with the
error byte `[7]`; everything else succeeds. -/
def fsFail0 : FsEnv :=
  ⟨true, true, none, none, fun n => if n = 0 then some [7] else none⟩

/-- The cache configuration with total capacity 10 split over 3 shards. -/
def cfg43 : CacheConfig := ⟨true, 10, 3, true, true, true, []⟩

theorem ShardedCache.put_fst_ok (c : ShardedCache) (key val : Bytes) :
    (c.put key val).1 = .ok () := by
  unfold ShardedCache.put Lru.put
  split <;> rfl

/-- C9: a request record whose carried fingerprint equals the hash of its
key addresses the same slot as rehashing the key would, for every shard
count `n ≥ 1`; hence `get_shard_key_val` agrees with `get_shard`, and every
key-taking `KeyVal` constructor establishes the fingerprint premise. -/
theorem keyval_slot_fingerprint_agrees (kv : KeyVal) (n : Nat)
    (hh : kv.hash = KeyVal.get_hash_code kv.key) (_hn : 1 ≤ n) :
    kv.slot n = KeyVal.key_slot kv.key n ∧
    (∀ c : ShardedCache, c.config.num_shards = n →
      c.get_shard_key_val kv = c.get_shard kv.key) ∧
    (∀ k v, (KeyVal.new k v).hash = KeyVal.get_hash_code k) ∧
    (∀ d k v, (KeyVal.new_with_db_name d k v).hash = KeyVal.get_hash_code k) ∧
    (∀ k, (KeyVal.new_with_key k).hash = KeyVal.get_hash_code k) ∧
    (∀ d k, (KeyVal.new_with_db_key d k).hash = KeyVal.get_hash_code k) := by
  refine ⟨?_, ?_, fun k v => rfl, fun d k v => rfl, fun k => rfl, fun d k => rfl⟩
  · unfold KeyVal.slot KeyVal.key_slot
    rw [hh]
  · intro c hc
    unfold ShardedCache.get_shard_key_val ShardedCache.get_shard KeyVal.slot KeyVal.key_slot
    rw [hh]

theorem keyval_slot_fingerprint_agrees_witness :
    (KeyVal.new [1] [2]).slot 3 = KeyVal.key_slot [1] 3 :=
  (keyval_slot_fingerprint_agrees (KeyVal.new [1] [2]) 3 rfl (by decide)).1

/-- C5: the source's `Lru::is_empty` returns `len() > 0`, so on a freshly
created (hence empty, `len = 0`) shard it answers `false`, and on the
one-entry shard `shard1` it answers `true` — the inverse of the claimed
`is_empty() ↔ len() == 0`. -/
theorem lru_is_empty_inverted :
    (Lru.new 0 5).len = 0 ∧ (Lru.new 0 5).is_empty = false ∧
    shard1.len = 1 ∧ shard1.is_empty = true :=
  ⟨rfl, rfl, rfl, rfl⟩

/-- C4 counterexample: with `cache_capacity = 10` and `num_shards = 3` the
constructor creates shards of capacity `(10 + 10 % 3) / 3 = 3`, while
`ceil(10 / 3) = (10 + 3 - 1) / 3 = 4`. -/
theorem sharded_cache_capacity_not_ceil :
    (ShardedCache.new cfg43).map (fun st => st.shards.map (fun s => s.cache_capacity))
        = some [3, 3, 3] ∧
    (10 + 3 - 1) / 3 = 4 ∧ (3 : Nat) ≠ 4 :=
  ⟨rfl, rfl, by decide⟩

/-- At `cache_capacity = 2 ^ 64 - 1` and `num_shards = 2` the source's
`usize` sum `cache_capacity + adjust` wraps to 0, so the capacity
assertion fails and the constructor panics; the model returns `none`. -/
theorem sharded_cache_new_wraps_at_usize_max :
    ShardedCache.new ⟨true, 18446744073709551615, 2, true, true, true, []⟩ = none := rfl

/-- C4 amended: for an enabled cache with `num_shards ≥ 1`, whenever the
constructor's capacity assertion `((C + C % N) mod 2 ^ 64) / N > 0` holds
(the `usize` sum wraps before the division; when the wrapped quotient is
zero — including the wrap-around cases near `usize::MAX` — the source
panics, modelled as `none`), `ShardedCache::new` creates exactly `N` LRU
shards and each shard's capacity equals `((C + C % N) mod 2 ^ 64) / N`
(integer division) — not `ceil(C / N)`. -/
theorem sharded_cache_new_shard_capacity (cfg : CacheConfig)
    (hN : 1 ≤ cfg.num_shards) (hen : cfg.enabled = true)
    (hcap : 1 ≤ ((cfg.cache_capacity + cfg.cache_capacity % cfg.num_shards) % U64MOD)
        / cfg.num_shards) :
    ∃ st, ShardedCache.new cfg = some st ∧
      st.shards.length = cfg.num_shards ∧
      ∀ s ∈ st.shards, s.cache_capacity =
        ((cfg.cache_capacity + cfg.cache_capacity % cfg.num_shards) % U64MOD)
          / cfg.num_shards := by
  have h1 : ¬ cfg.num_shards = 0 := by omega
  have h2 : ¬ ((cfg.cache_capacity + cfg.cache_capacity % cfg.num_shards) % U64MOD)
      / cfg.num_shards = 0 := by omega
  refine ⟨⟨(List.range cfg.num_shards).map
      (fun i => Lru.new i
        (((cfg.cache_capacity + cfg.cache_capacity % cfg.num_shards) % U64MOD)
          / cfg.num_shards)),
      cfg, cfg.enabled⟩, ?_, ?_, ?_⟩
  · simp [ShardedCache.new, h1, h2, hen]
  · simp
  · intro s hs
    simp only [List.mem_map] at hs
    obtain ⟨i, _, rfl⟩ := hs
    rfl

theorem sharded_cache_new_shard_capacity_witness :
    ∃ st, ShardedCache.new cfg43 = some st ∧
      st.shards.length = cfg43.num_shards ∧
      ∀ s ∈ st.shards, s.cache_capacity =
        ((cfg43.cache_capacity + cfg43.cache_capacity % cfg43.num_shards) % U64MOD)
          / cfg43.num_shards :=
  sharded_cache_new_shard_capacity cfg43 (by decide) rfl (by decide)

/-- C6: with the enabled flag false, `get`/`get_key_val` return `None` and
`put`/`put_key_val`/`delete`/`batch_put` return `Ok(())`, all leaving the
cache state (hence every shard's contents) unchanged. -/
theorem sharded_cache_disabled_bypass (c : ShardedCache) (key val : Bytes) (kv : KeyVal)
    (data : List KeyVal) (h : c.enabled = false) :
    c.get key = (none, c) ∧ c.get_key_val kv = (none, c) ∧
    c.put key val = (.ok (), c) ∧ c.put_key_val kv val = (.ok (), c) ∧
    c.delete key = (.ok (), c) ∧ c.batch_put data = (.ok (), c) := by
  unfold ShardedCache.get ShardedCache.get_key_val ShardedCache.put ShardedCache.put_key_val
    ShardedCache.delete ShardedCache.batch_put
  simp [h]

theorem sharded_cache_disabled_bypass_witness :
    cacheOff.get [1] = (none, cacheOff) ∧ cacheOff.get_key_val kvW = (none, cacheOff) ∧
    cacheOff.put [1] [2] = (.ok (), cacheOff) ∧ cacheOff.put_key_val kvW [2] = (.ok (), cacheOff) ∧
    cacheOff.delete [1] = (.ok (), cacheOff) ∧ cacheOff.batch_put [kvW] = (.ok (), cacheOff) :=
  sharded_cache_disabled_bypass cacheOff [1] [2] kvW [kvW] rfl

/-- C1: with DBs `[red, blue]`, extraction enabled and the rule `^user:` →
`red`, the request `{db_name: "", key: "user:42", hash: 1}` has its name
extracted to `red` (the first manager, index 0), but `Bhatho::get_shard`
scans the DB list against the pre-extraction `kv.db_name` and therefore
falls through to `hash % 2 = 1`; the spec's selection rule
(`get_shard_spec`, scanning by the post-extraction name) returns 0. -/
theorem router_scan_uses_pre_extraction_name :
    Bhatho.extract_table_name_from_key bRouter kvUser = .ok redName ∧
    (bRouter.dbs.enum.find? (fun p => p.2.name == redName)).map (fun p => p.1) = some 0 ∧
    Bhatho.get_shard bRouter kvUser = 1 ∧
    Bhatho.get_shard_spec bRouter kvUser = 0 :=
  ⟨rfl, rfl, rfl, rfl⟩

theorem attempted_of_subset {kv : KeyVal} {l l2 : List DbOp}
    (hsub : ∀ x ∈ l, x ∈ l2) (h : attempted kv l) : attempted kv l2 := by
  obtain ⟨op, hop, hcase⟩ := h
  exact ⟨op, hsub op hop, hcase⟩

theorem attempted_iterOps (cfg : RocksDbConfig) (data : List KeyVal) (kv : KeyVal)
    (hkv : kv ∈ data) : attempted kv (iterOps cfg data) := by
  unfold iterOps
  have hne : data.isEmpty = false := by
    cases data with
    | nil => cases hkv
    | cons a l => rfl
  rw [hne]
  simp only [Bool.false_eq_true, if_false]
  by_cases hlen : data.length < cfg.min_count_for_batch_write
  · simp only [hlen, if_true]
    exact ⟨DbOp.put kv.key kv.val, List.mem_map_of_mem _ hkv, Or.inl rfl⟩
  · simp only [hlen, if_false]
    refine ⟨_, List.mem_singleton_self _, Or.inr ⟨_, _, rfl, ?_⟩⟩
    exact List.mem_map_of_mem _ hkv

theorem iterOps_batch_wal (cfg : RocksDbConfig) (data : List KeyVal) (op : DbOp)
    (hop : op ∈ iterOps cfg data) (b : List (Bytes × Bytes)) (w : Bool)
    (heq : op = DbOp.writeBatch b w) : w = !cfg.disable_wal := by
  unfold iterOps at hop
  by_cases hne : data.isEmpty
  · rw [if_pos hne] at hop
    rw [List.mem_singleton] at hop
    subst hop
    cases heq
  · rw [if_neg hne] at hop
    by_cases hlen : data.length < cfg.min_count_for_batch_write
    · rw [if_pos hlen] at hop
      obtain ⟨kv, _, rfl⟩ := List.mem_map.mp hop
      cases heq
    · rw [if_neg hlen] at hop
      rw [List.mem_singleton] at hop
      subst hop
      injection heq with h1 h2
      exact h2.symm

/-- C2: the async writer loop, as a function of the drain/shutdown schedule,
is the concatenation of the per-iteration behaviours (`iterOps`: sleep on
empty drain, individual puts below the batch threshold, one WAL-gated
batch otherwise) over the prefix before the first empty drain with
shutdown observed; it exits exactly when such an iteration exists; every
record drained in that prefix is attempted against the store; and every
batch it commits takes the non-WAL path exactly when `disable_wal`. -/
theorem write_to_db_characterization (cfg : RocksDbConfig) (sched : List (List KeyVal × Bool)) :
    write_to_db cfg sched =
      ((sched.takeWhile (fun p => !(p.1.isEmpty && p.2))).flatMap (fun p => iterOps cfg p.1),
        sched.any (fun p => p.1.isEmpty && p.2)) ∧
    (∀ p ∈ sched.takeWhile (fun p => !(p.1.isEmpty && p.2)), ∀ kv ∈ p.1,
      attempted kv (write_to_db cfg sched).1) ∧
    (∀ op ∈ (write_to_db cfg sched).1, ∀ b w, op = DbOp.writeBatch b w →
      w = !cfg.disable_wal) := by
  have main : write_to_db cfg sched =
      ((sched.takeWhile (fun p => !(p.1.isEmpty && p.2))).flatMap (fun p => iterOps cfg p.1),
        sched.any (fun p => p.1.isEmpty && p.2)) := by
    induction sched with
    | nil => rfl
    | cons hd tl ih =>
      obtain ⟨data, sd⟩ := hd
      by_cases hne : data.isEmpty
      · have hnil : data = [] := List.isEmpty_iff.mp hne
        subst hnil
        cases sd with
        | true => rfl
        | false =>
          simp only [write_to_db, ih, List.takeWhile_cons, List.any_cons, iterOps]
          simp
      · have hne2 : data.isEmpty = false := by simpa using hne
        have hnil : ¬ data = [] := by simpa [List.isEmpty_iff] using hne
        by_cases hlen : data.length < cfg.min_count_for_batch_write
        · simp only [write_to_db, hne2, Bool.false_eq_true, if_false, hlen, if_true, ih,
            List.takeWhile_cons, List.any_cons, iterOps]
          simp [hne2, hnil, hlen]
        · simp only [write_to_db, hne2, Bool.false_eq_true, if_false, hlen, ih,
            List.takeWhile_cons, List.any_cons, iterOps]
          simp [hne2, hnil, hlen]
  refine ⟨main, ?_, ?_⟩
  · intro p hp kv hkv
    rw [main]
    refine attempted_of_subset ?_ (attempted_iterOps cfg p.1 kv hkv)
    intro x hx
    exact List.mem_flatMap.mpr ⟨p, hp, hx⟩
  · intro op hop b w heq
    rw [main] at hop
    obtain ⟨p, _, hmem⟩ := List.mem_flatMap.mp hop
    exact iterOps_batch_wal cfg p.1 op hmem b w heq

theorem write_to_db_characterization_witness :
    write_to_db cfgW schedW = ([DbOp.put [1] [2]], true) ∧
    attempted kvW (write_to_db cfgW schedW).1 :=
  ⟨(write_to_db_characterization cfgW schedW).1,
    (write_to_db_characterization cfgW schedW).2.1 ([kvW], false) (by decide) kvW (by decide)⟩

/-- C3: read-through policy of `DbManager::get` and `get_key_val`: a cache
hit returns `Ok(Some((v, true)))`; on a miss a store hit returns
`Ok(Some((v, false)))` and, when `cache_update_on_db_read` is set, the
pair is inserted into the cache with the insert's error discarded (the
returned value is `Ok(Some((v, false)))` either way); a store miss gives
`Ok(None)` and a store error is propagated as `Err`. -/
theorem db_manager_read_through (m : DbManager) (db : StoreModel) (key : Bytes) (kv : KeyVal)
    (hdb : m.db = some db) :
    (∀ v c1, m.cache.get key = (some v, c1) → m.get key = (.ok (some (v, true)), c1)) ∧
    (∀ c1, m.cache.get key = (none, c1) →
      (∀ v, db.getFn key = .ok (some v) →
        m.get key = (.ok (some (v, false)),
          if m.config.cache_config.cache_update_on_db_read then (c1.put key v).2 else c1)) ∧
      (db.getFn key = .ok none → m.get key = (.ok none, c1)) ∧
      (∀ e, db.getFn key = .error e → m.get key = (.error e, c1))) ∧
    (∀ v c1, m.cache.get_key_val kv = (some v, c1) →
      m.get_key_val kv = (.ok (some (v, true)), c1)) ∧
    (∀ c1, m.cache.get_key_val kv = (none, c1) →
      (∀ v, db.getFn kv.key = .ok (some v) →
        m.get_key_val kv = (.ok (some (v, false)),
          if m.config.cache_config.cache_update_on_db_read then (c1.put_key_val kv v).2 else c1)) ∧
      (db.getFn kv.key = .ok none → m.get_key_val kv = (.ok none, c1)) ∧
      (∀ e, db.getFn kv.key = .error e → m.get_key_val kv = (.error e, c1))) := by
  refine ⟨?_, ?_, ?_, ?_⟩
  · intro v c1 hc
    simp [DbManager.get, hc]
  · intro c1 hc
    refine ⟨?_, ?_, ?_⟩
    · intro v hv
      simp only [DbManager.get, hc, hdb, hv]
      split <;> simp
    · intro hv
      simp [DbManager.get, hc, hdb, hv]
    · intro e hv
      simp [DbManager.get, hc, hdb, hv]
  · intro v c1 hc
    simp [DbManager.get_key_val, hc]
  · intro c1 hc
    refine ⟨?_, ?_, ?_⟩
    · intro v hv
      simp only [DbManager.get_key_val, hc, hdb, hv]
      split <;> simp
    · intro hv
      simp [DbManager.get_key_val, hc, hdb, hv]
    · intro e hv
      simp [DbManager.get_key_val, hc, hdb, hv]

theorem db_manager_read_through_witness :
    mgrHit.get [1] = (.ok (some ([2], true)), cacheOn) ∧
    mgrHit.get [3] = (.ok none, cacheOn) :=
  ⟨(db_manager_read_through mgrHit storeEmpty [1] kvW rfl).1 [2] cacheOn rfl,
    ((db_manager_read_through mgrHit storeEmpty [3] kvW rfl).2.1 cacheOn rfl).2.1 rfl⟩

/-- C7: write-through policy of `DbManager::put` and `put_key_val`: a store
put error is returned verbatim with the cache untouched; when the store
put succeeds and `cache_update_on_db_write` is set, the cache is updated
and the cache update's result is what the caller receives (in this code
the cache `put` always returns `Ok(())`); with the policy unset the
result is `Ok(())` with the cache untouched. -/
theorem db_manager_write_through (m : DbManager) (db : StoreModel) (key val : Bytes)
    (kv : KeyVal) (hdb : m.db = some db) :
    (∀ e, db.putFn key val = .error e → m.put key val = (.error e, m.cache)) ∧
    (db.putFn key val = .ok () →
      (m.config.cache_config.cache_update_on_db_write = true →
        m.put key val = m.cache.put key val ∧ (m.cache.put key val).1 = .ok ()) ∧
      (m.config.cache_config.cache_update_on_db_write = false →
        m.put key val = (.ok (), m.cache))) ∧
    (∀ e, db.putFn kv.key kv.val = .error e → m.put_key_val kv = (.error e, m.cache)) ∧
    (db.putFn kv.key kv.val = .ok () →
      (m.config.cache_config.cache_update_on_db_write = true →
        m.put_key_val kv = m.cache.put kv.key kv.val ∧
          (m.cache.put kv.key kv.val).1 = .ok ()) ∧
      (m.config.cache_config.cache_update_on_db_write = false →
        m.put_key_val kv = (.ok (), m.cache))) := by
  refine ⟨?_, ?_, ?_, ?_⟩
  · intro e hv
    simp [DbManager.put, hdb, hv]
  · intro hv
    constructor
    · intro hflag
      exact ⟨by simp [DbManager.put, hdb, hv, hflag], ShardedCache.put_fst_ok m.cache key val⟩
    · intro hflag
      simp [DbManager.put, hdb, hv, hflag]
  · intro e hv
    simp [DbManager.put_key_val, hdb, hv]
  · intro hv
    constructor
    · intro hflag
      exact ⟨by simp [DbManager.put_key_val, hdb, hv, hflag],
        ShardedCache.put_fst_ok m.cache kv.key kv.val⟩
    · intro hflag
      simp [DbManager.put_key_val, hdb, hv, hflag]

theorem db_manager_write_through_witness :
    mgrErr.put [1] [2] = (.error [101], mgrErr.cache) ∧
    mgrHit.put [1] [7] = mgrHit.cache.put [1] [7] ∧ (mgrHit.cache.put [1] [7]).1 = .ok () :=
  ⟨(db_manager_write_through mgrErr storeErr [1] [2] kvW rfl).1 [101] rfl,
    ((db_manager_write_through mgrHit storeEmpty [1] [7] kvW rfl).2.1 rfl).1 rfl⟩

theorem exportEntries_clean (env : FsEnv) (hw : ∀ n, env.write_result n = none) :
    ∀ (entries : List (Bytes × Bytes)) (st : FileSt) (total : Nat),
    exportEntries env entries st total =
      (.ok (total + entries.length),
        ⟨st.data ++ entries.flatMap (fun e => [e.1, crlf]),
          st.wcount + 2 * entries.length⟩) := by
  intro entries
  induction entries with
  | nil =>
    intro st total
    obtain ⟨d, w⟩ := st
    simp [exportEntries]
  | cons ent rest ih =>
    intro st total
    simp only [exportEntries, fwrite, hw]
    rw [ih]
    simp only [Prod.mk.injEq, FileSt.mk.injEq, Except.ok.injEq, List.flatMap_cons,
      List.append_assoc, List.length_cons]
    refine ⟨by omega, by simp, by omega⟩

theorem exportShardsLoop_clean (env : FsEnv) (hw : ∀ n, env.write_result n = none) :
    ∀ (shards : List Lru) (st : FileSt) (total : Nat),
    exportShardsLoop env shards st total =
      (.ok (total + (shards.map (fun s => s.cache.entries.length)).sum),
        ⟨st.data ++ shards.flatMap (fun s => s.cache.entries.flatMap (fun e => [e.1, crlf])),
          st.wcount + 2 * (shards.map (fun s => s.cache.entries.length)).sum⟩) := by
  intro shards
  induction shards with
  | nil =>
    intro st total
    obtain ⟨d, w⟩ := st
    simp [exportShardsLoop]
  | cons s rest ih =>
    intro st total
    simp only [exportShardsLoop, Lru.export_keys, exportEntries_clean env hw, ih]
    simp only [Prod.mk.injEq, FileSt.mk.injEq, Except.ok.injEq, List.flatMap_cons,
      List.append_assoc, List.map_cons, List.sum_cons]
    refine ⟨by omega, by simp, by omega⟩

theorem exportEntries_error (env : FsEnv) :
    ∀ (entries : List (Bytes × Bytes)) (st : FileSt) (total : Nat) (e : Bytes),
    (exportEntries env entries st total).1 = .error e →
    ∃ n, env.write_result n = some e := by
  intro entries
  induction entries with
  | nil =>
    intro st total e h
    simp [exportEntries] at h
  | cons ent rest ih =>
    intro st total e h
    cases hw1 : env.write_result st.wcount with
    | some err =>
      simp only [exportEntries, fwrite, hw1] at h
      simp at h
      exact ⟨st.wcount, by rw [hw1, h]⟩
    | none =>
      cases hw2 : env.write_result (st.wcount + 1) with
      | some err =>
        simp only [exportEntries, fwrite, hw1, hw2] at h
        simp at h
        exact ⟨st.wcount + 1, by rw [hw2, h]⟩
      | none =>
        simp only [exportEntries, fwrite, hw1, hw2] at h
        exact ih _ _ e h

theorem exportShardsLoop_error (env : FsEnv) :
    ∀ (shards : List Lru) (st : FileSt) (total : Nat) (e : Bytes),
    (exportShardsLoop env shards st total).1 = .error e →
    ∃ n, env.write_result n = some e := by
  intro shards
  induction shards with
  | nil =>
    intro st total e h
    simp [exportShardsLoop] at h
  | cons s rest ih =>
    intro st total e h
    simp only [exportShardsLoop] at h
    cases hres : Lru.export_keys s env st with
    | mk r1 st1 =>
      rw [hres] at h
      cases r1 with
      | error err =>
        simp at h
        have hfst : (exportEntries env s.cache.entries st 0).1 = .error e := by
          have : (Lru.export_keys s env st).1 = .error e := by
            rw [hres, h]
          exact this
        exact exportEntries_error env s.cache.entries st 0 e hfst
      | ok count =>
        exact ih st1 (total + count) e h

theorem flatMap_pair_length (entries : List (Bytes × Bytes)) :
    (entries.flatMap (fun x => [x.1, crlf])).length = 2 * entries.length := by
  induction entries with
  | nil => rfl
  | cons a t ih =>
    simp only [List.flatMap_cons, List.length_append, List.length_cons, ih]
    simp
    omega

theorem exportEntries_partial_clean (env : FsEnv) :
    ∀ (entries : List (Bytes × Bytes)) (st : FileSt) (total : Nat),
    (∀ n, n < 2 * entries.length → env.write_result (st.wcount + n) = none) →
    exportEntries env entries st total =
      (.ok (total + entries.length),
        ⟨st.data ++ entries.flatMap (fun e => [e.1, crlf]),
          st.wcount + 2 * entries.length⟩) := by
  intro entries
  induction entries with
  | nil =>
    intro st total _
    obtain ⟨d, w⟩ := st
    simp [exportEntries]
  | cons ent rest ih =>
    intro st total hw
    have h0 : env.write_result st.wcount = none := by
      simpa using hw 0 (by simp only [List.length_cons]; omega)
    have h1 : env.write_result (st.wcount + 1) = none :=
      hw 1 (by simp only [List.length_cons]; omega)
    simp only [exportEntries, fwrite, h0, h1]
    refine (ih _ _ ?_).trans ?_
    · intro n hn
      show env.write_result (st.wcount + 1 + 1 + n) = none
      have h2 := hw (n + 2) (by simp only [List.length_cons]; omega)
      have heq : st.wcount + (n + 2) = st.wcount + 1 + 1 + n := by omega
      rw [heq] at h2
      exact h2
    · simp only [Prod.mk.injEq, FileSt.mk.injEq, Except.ok.injEq, List.flatMap_cons,
        List.append_assoc, List.length_cons]
      refine ⟨by omega, by simp, by omega⟩

theorem exportEntries_abort (env : FsEnv) :
    ∀ (entries : List (Bytes × Bytes)) (st : FileSt) (total m : Nat) (e : Bytes),
    (∀ n, n < m → env.write_result (st.wcount + n) = none) →
    env.write_result (st.wcount + m) = some e →
    m < 2 * entries.length →
    exportEntries env entries st total =
      (.error e,
        ⟨st.data ++ (entries.flatMap (fun x => [x.1, crlf])).take m, st.wcount + m⟩) := by
  intro entries
  induction entries with
  | nil =>
    intro st total m e _ _ hlt
    simp at hlt
  | cons ent rest ih =>
    intro st total m e hpre hfail hlt
    cases m with
    | zero =>
      have hf : env.write_result st.wcount = some e := by simpa using hfail
      simp only [exportEntries, fwrite, hf]
      obtain ⟨d, w⟩ := st
      simp
    | succ m1 =>
      have h0 : env.write_result st.wcount = none := by
        simpa using hpre 0 (by omega)
      cases m1 with
      | zero =>
        have hf : env.write_result (st.wcount + 1) = some e := by simpa using hfail
        simp only [exportEntries, fwrite, h0, hf]
        simp [List.flatMap_cons]
      | succ m2 =>
        have h1 : env.write_result (st.wcount + 1) = none := by
          simpa using hpre 1 (by omega)
        simp only [exportEntries, fwrite, h0, h1]
        refine (ih _ _ m2 e ?_ ?_ ?_).trans ?_
        · intro n hn
          show env.write_result (st.wcount + 1 + 1 + n) = none
          have h2 := hpre (n + 2) (by omega)
          have heq : st.wcount + (n + 2) = st.wcount + 1 + 1 + n := by omega
          rw [heq] at h2
          exact h2
        · show env.write_result (st.wcount + 1 + 1 + m2) = some e
          have heq : st.wcount + 1 + 1 + m2 = st.wcount + (m2 + 1 + 1) := by omega
          rw [heq]
          exact hfail
        · show m2 < 2 * rest.length
          rw [List.length_cons] at hlt
          omega
        · simp only [Prod.mk.injEq, FileSt.mk.injEq, List.flatMap_cons, List.append_assoc,
            List.take_succ_cons]
          refine ⟨trivial, by simp, by omega⟩

theorem exportShardsLoop_abort (env : FsEnv) :
    ∀ (shards : List Lru) (st : FileSt) (total m : Nat) (e : Bytes),
    (∀ n, n < m → env.write_result (st.wcount + n) = none) →
    env.write_result (st.wcount + m) = some e →
    m < 2 * (shards.map (fun s => s.cache.entries.length)).sum →
    exportShardsLoop env shards st total =
      (.error e,
        ⟨st.data ++
          (shards.flatMap (fun s => s.cache.entries.flatMap (fun x => [x.1, crlf]))).take m,
          st.wcount + m⟩) := by
  intro shards
  induction shards with
  | nil =>
    intro st total m e _ _ hlt
    simp at hlt
  | cons s rest ih =>
    intro st total m e hpre hfail hlt
    by_cases hm : m < 2 * s.cache.entries.length
    · have habort := exportEntries_abort env s.cache.entries st 0 m e hpre hfail hm
      simp only [exportShardsLoop, Lru.export_keys, habort]
      have htake : ((s.cache.entries.flatMap (fun x => [x.1, crlf]))
            ++ rest.flatMap (fun t => t.cache.entries.flatMap (fun x => [x.1, crlf]))).take m
          = (s.cache.entries.flatMap (fun x => [x.1, crlf])).take m := by
        refine List.take_append_of_le_length ?_
        rw [flatMap_pair_length]
        omega
      simp [htake]
    · have hclean := exportEntries_partial_clean env s.cache.entries st 0
        (fun n hn => hpre n (by omega))
      simp only [exportShardsLoop, Lru.export_keys, hclean]
      refine (ih _ _ (m - 2 * s.cache.entries.length) e ?_ ?_ ?_).trans ?_
      · intro n hn
        show env.write_result (st.wcount + 2 * s.cache.entries.length + n) = none
        have h2 := hpre (2 * s.cache.entries.length + n) (by omega)
        have heq : st.wcount + (2 * s.cache.entries.length + n)
            = st.wcount + 2 * s.cache.entries.length + n := by omega
        rw [heq] at h2
        exact h2
      · show env.write_result
            (st.wcount + 2 * s.cache.entries.length + (m - 2 * s.cache.entries.length))
          = some e
        have heq : st.wcount + 2 * s.cache.entries.length + (m - 2 * s.cache.entries.length)
            = st.wcount + m := by omega
        rw [heq]
        exact hfail
      · show m - 2 * s.cache.entries.length < 2 * (rest.map (fun t => t.cache.entries.length)).sum
        rw [List.map_cons, List.sum_cons] at hlt
        omega
      · have htake : ((s.cache.entries.flatMap (fun x => [x.1, crlf]))
              ++ rest.flatMap (fun t => t.cache.entries.flatMap (fun x => [x.1, crlf]))).take m
            = (s.cache.entries.flatMap (fun x => [x.1, crlf]))
              ++ (rest.flatMap (fun t => t.cache.entries.flatMap (fun x => [x.1, crlf]))).take
                  (m - 2 * s.cache.entries.length) := by
          rw [List.take_append_eq_append_take]
          rw [List.take_of_length_le (by rw [flatMap_pair_length]; omega)]
          rw [flatMap_pair_length]
        simp only [Prod.mk.injEq, FileSt.mk.injEq, List.flatMap_cons, List.append_assoc, htake]
        refine ⟨trivial, by simp, by omega⟩

/-- C8: when the cache is enabled, dumping is enabled and the filesystem
succeeds, `ShardedCache::export_keys` opens the single dump file (creating
the parent directory only when the path is missing), writes, shard by
shard in index order, each key followed by a CRLF block, issues the final
sync, and returns the total number of keys over all shards — the sum of
the per-shard counts; and (for an arbitrary filesystem) any `Err` the
export returns is exactly an error raised by directory creation, file
open, or one of the writes (the first failing shard's error is surfaced);
and, conversely, when directory creation and open succeed and the first
write failure occurs at write index `m` — i.e. during some shard's export,
since `m` is below the total number of blocks the shards would write —
the export aborts there: it returns exactly that write's error and the
trace stops at the blocks written before the failure, with no later
shard's writes and no sync. -/
theorem sharded_cache_export_keys_correct (c : ShardedCache) (env : FsEnv)
    (hen : c.enabled = true) (hdump : c.config.keys_dump_enabled = true)
    (hdir : env.create_dir_result = none) (hopen : env.open_result = none)
    (hw : ∀ n, env.write_result n = none) :
    c.export_keys env =
      (.ok ((c.shards.map (fun s => s.cache.entries.length)).sum),
        (if !env.path_exists && env.has_parent then [FsOp.createDirAll] else [])
          ++ [FsOp.openFile]
          ++ (c.shards.flatMap
              (fun s => s.cache.entries.flatMap
                (fun e => [FsOp.fileWrite e.1, FsOp.fileWrite crlf])))
          ++ [FsOp.syncData]) ∧
    (∀ env2 : FsEnv, ∀ e, (c.export_keys env2).1 = .error e →
      env2.create_dir_result = some e ∨ env2.open_result = some e ∨
        ∃ n, env2.write_result n = some e) ∧
    (∀ env2 : FsEnv, env2.create_dir_result = none → env2.open_result = none →
      ∀ m e, (∀ n, n < m → env2.write_result n = none) →
        env2.write_result m = some e →
        m < 2 * (c.shards.map (fun s => s.cache.entries.length)).sum →
        c.export_keys env2 =
          (.error e,
            (if !env2.path_exists && env2.has_parent then [FsOp.createDirAll] else [])
              ++ [FsOp.openFile]
              ++ ((c.shards.flatMap
                  (fun s => s.cache.entries.flatMap (fun x => [x.1, crlf]))).take m).map
                    FsOp.fileWrite)) := by
  refine ⟨?_, ?_, ?_⟩
  · unfold ShardedCache.export_keys
    simp only [hen, hdump, hdir, hopen, Bool.not_true, Bool.false_eq_true, if_false, ite_self,
      exportShardsLoop_clean env hw]
    simp [List.map_flatMap, crlf]
  · intro env2 e h
    unfold ShardedCache.export_keys at h
    simp only [hen, hdump, Bool.not_true, Bool.false_eq_true, if_false] at h
    by_cases hnd : (!env2.path_exists && env2.has_parent) = true
    · rw [if_pos hnd] at h
      cases hcd : env2.create_dir_result with
      | some e1 =>
        rw [hcd] at h
        simp at h
        exact Or.inl (congrArg some h)
      | none =>
        rw [hcd] at h
        cases hop : env2.open_result with
        | some e1 =>
          rw [hop] at h
          simp at h
          exact Or.inr (Or.inl (congrArg some h))
        | none =>
          rw [hop] at h
          cases hloop : (exportShardsLoop env2 c.shards ⟨[], 0⟩ 0).1 with
          | error e1 =>
            rw [hloop] at h
            simp at h
            exact Or.inr (Or.inr (exportShardsLoop_error env2 c.shards ⟨[], 0⟩ 0 e (hloop.trans (congrArg Except.error h))))
          | ok total =>
            rw [hloop] at h
            simp at h
    · rw [if_neg hnd] at h
      cases hop : env2.open_result with
      | some e1 =>
        rw [hop] at h
        simp at h
        exact Or.inr (Or.inl (congrArg some h))
      | none =>
        rw [hop] at h
        cases hloop : (exportShardsLoop env2 c.shards ⟨[], 0⟩ 0).1 with
        | error e1 =>
          rw [hloop] at h
          simp at h
          exact Or.inr (Or.inr (exportShardsLoop_error env2 c.shards ⟨[], 0⟩ 0 e (hloop.trans (congrArg Except.error h))))
        | ok total =>
          rw [hloop] at h
          simp at h
  · intro env2 hdir2 hopen2 m e hpre hfail hlt
    have habort := exportShardsLoop_abort env2 c.shards ⟨[], 0⟩ 0 m e
      (fun n hn => by simpa using hpre n hn) (by simpa using hfail) hlt
    unfold ShardedCache.export_keys
    simp only [hen, hdump, Bool.not_true, Bool.false_eq_true, if_false, hdir2, ite_self,
      hopen2, habort]
    simp

theorem sharded_cache_export_keys_correct_witness :
    cacheOn.export_keys fsClean =
      (.ok ((cacheOn.shards.map (fun s => s.cache.entries.length)).sum),
        (if !fsClean.path_exists && fsClean.has_parent then [FsOp.createDirAll] else [])
          ++ [FsOp.openFile]
          ++ (cacheOn.shards.flatMap
              (fun s => s.cache.entries.flatMap
                (fun e => [FsOp.fileWrite e.1, FsOp.fileWrite crlf])))
          ++ [FsOp.syncData]) ∧
    cacheOn.export_keys fsFail0 =
      (.error [7],
        (if !fsFail0.path_exists && fsFail0.has_parent then [FsOp.createDirAll] else [])
          ++ [FsOp.openFile]
          ++ (((cacheOn.shards.flatMap
              (fun s => s.cache.entries.flatMap (fun x => [x.1, crlf]))).take 0).map
                FsOp.fileWrite)) :=
  ⟨(sharded_cache_export_keys_correct cacheOn fsClean rfl rfl rfl rfl (fun _ => rfl)).1,
    (sharded_cache_export_keys_correct cacheOn fsClean rfl rfl rfl rfl
        (fun _ => rfl)).2.2 fsFail0 rfl rfl 0 [7]
      (fun n hn => absurd hn (Nat.not_lt_zero n)) rfl (by decide)⟩

/-- C10: `ShardedCache::export_keys` returns `Ok(0)` with no filesystem
action at all (no directory creation, no open, no write, no sync) when the
cache is enabled but `keys_dump_enabled` is false, and likewise when the
cache is disabled. -/
theorem export_keys_gate (c : ShardedCache) (env : FsEnv) :
    (c.enabled = true → c.config.keys_dump_enabled = false →
      c.export_keys env = (.ok 0, [])) ∧
    (c.enabled = false → c.export_keys env = (.ok 0, [])) := by
  constructor
  · intro h1 h2
    simp [ShardedCache.export_keys, h1, h2]
  · intro h1
    simp [ShardedCache.export_keys, h1]

theorem export_keys_gate_witness :
    cacheNoDump.export_keys fsClean = (.ok 0, []) ∧
    cacheOff.export_keys fsClean = (.ok 0, []) :=
  ⟨(export_keys_gate cacheNoDump fsClean).1 rfl rfl,
    (export_keys_gate cacheOff fsClean).2 rfl⟩
